import Mathlib

/-!
Shallow embedding of the `Accordion` layout-propagation engine
(`src/src/accordion.js`, newer variant; `src/accordion.js`, older variant).

JavaScript numbers that can be `undefined`/`NaN` are modelled as `Option Int`
(`none` = NaN or unset), with `jadd`/`jsub` propagating `none` the way IEEE
arithmetic propagates NaN, and `truthy` mirroring JS truthiness (0, NaN,
undefined are falsy).  DOM reads used by `edgeCheck` (the container's
bounding-box bottom and `window.innerHeight`) are passed in as an `Env`.
-/

/-- JS number-or-undefined/NaN: `none` stands for NaN (or the unset
`_height` field, which behaves identically in this code: it is falsy and
poisons arithmetic). -/
abbrev JSNum := Option Int

/-- JS `+`: NaN-propagating addition. -/
def jadd (a b : JSNum) : JSNum :=
  match a, b with
  | some x, some y => some (x + y)
  | _, _ => none

/-- JS `-`: NaN-propagating subtraction. -/
def jsub (a b : JSNum) : JSNum :=
  match a, b with
  | some x, some y => some (x - y)
  | _, _ => none

/-- JS truthiness of a number-valued expression: `0`, `NaN` and `undefined`
are falsy. -/
def truthy (a : JSNum) : Bool :=
  match a with
  | some x => x != 0
  | none => false

/-- JS `offset || 0`: a falsy offset (0 or NaN) is replaced by 0. -/
def jsOr0 (a : JSNum) : Int :=
  if truthy a then a.getD 0 else 0

/--
One collapsible region of an accordion (the `Fold` class itself is not under
`src/`; its geometry-relevant fields are taken from the spec's data model:
`y`, `height`, `open` — renamed `isOpen`, a Lean keyword — and the sibling
order, which the list position encodes in place of
`previousFold`/`nextFold`).  `fitHeight` models the DOM-derived natural
height that `Fold.prototype.fit` recomputes from the current content
(heading + content when open, the closed height otherwise); it is constant
between content changes.
-/
structure Fold where
  y : JSNum
  height : JSNum
  isOpen : Bool
  fitHeight : Int
deriving DecidableEq, Repr

/-- Modelled from the spec: `Fold.prototype.fit` (the `Fold` class is not
under `src/`) — "recompute `height` from current content size"; the computed
natural height is `fitHeight`. -/
def Fold.fit (f : Fold) : Fold :=
  { f with height := some f.fitHeight }

/--
The geometric state of one `Accordion` instance.
`_height` is the backing field of the `height` getter/setter (unset until
the setter first fires).  `edgeOn` is the truthiness of the `edgeClass`
option; `hasEdge` is whether the container's class list currently holds the
edge class; `styleWrites` logs each `el.style.height` write (most recent
first), so that skipped writes are observable.
-/
structure Accordion where
  folds : List Fold
  _height : JSNum
  edgeOn : Bool
  hasEdge : Bool
  styleWrites : List Int
deriving DecidableEq, Repr

/-- DOM readings used by `edgeCheck`: the container's
`getBoundingClientRect().bottom` and `window.innerHeight`. -/
structure Env where
  boxBottom : Int
  windowEdge : Int
deriving DecidableEq, Repr

/-- The `height` setter (src/src/accordion.js lines 97-102):
`if(input && (input = +input) !== this._height){ style write; store }`. -/
def setHeight (a : Accordion) (input : JSNum) : Accordion :=
  match input with
  | some v =>
    if v ≠ 0 ∧ some v ≠ a._height then
      { a with styleWrites := v :: a.styleWrites, _height := some v }
    else a
  | none => a

/-- `edgeCheck(offset)` (src/src/accordion.js lines 112-127). -/
def edgeCheck (a : Accordion) (env : Env) (offset : JSNum) : Accordion :=
  if a.edgeOn then
    if env.boxBottom + jsOr0 offset < env.windowEdge then { a with hasEdge := true }
    else if env.boxBottom > env.windowEdge then { a with hasEdge := false }
    else a
  else a

/-- The `while(next = next.nextFold) next.y += offset` loop of `updateFold`:
every fold strictly after position `i` has `offset` added to its `y`. -/
def addYAfter : Nat → JSNum → List Fold → List Fold
  | _, _, [] => []
  | 0, off, f :: fs => f :: fs.map (fun g => { g with y := jadd g.y off })
  | n + 1, off, f :: fs => f :: addYAfter n off fs

/-- The `fold.height += offset` statement of `updateFold`: the fold at
position `i` has `offset` added to its `height`. -/
def addHeightAt : Nat → JSNum → List Fold → List Fold
  | _, _, [] => []
  | 0, off, f :: fs => { f with height := jadd f.height off } :: fs
  | n + 1, off, f :: fs => f :: addHeightAt n off fs

/-- The body of `updateFold(fold, offset)` up to (not including) the
delegation to the parent (src/src/accordion.js lines 137-145, identical in
the older variant's lines 111-119): shift later siblings, edge-check when
there is no `parentFold` (`isRoot`), bump the fold's height, then
`this.height += offset` through the conditional setter. -/
def updateFoldLocal (env : Env) (isRoot : Bool) (i : Nat) (offset : JSNum) (a : Accordion) : Accordion :=
  let a1 := { a with folds := addYAfter i offset a.folds }
  let a2 := if isRoot then edgeCheck a1 env offset else a1
  let a3 := { a2 with folds := addHeightAt i offset a2.folds }
  setHeight a3 (jadd a3._height offset)

/-- Truthiness of `parentFold.open` where `parentFold` is fold `j` of the
parent accordion `p`. -/
def parentFoldOpen (p : Accordion) (j : Nat) : Bool :=
  match p.folds.get? j with
  | some f => f.isOpen
  | none => false

/--
`updateFold` of the newer variant (src/src/accordion.js lines 137-148) on a
whole ancestor chain.  The accordion the call starts on is `a`; `anc` lists
its ancestors innermost-first, each as `(j, p)` where fold `j` of accordion
`p` is the `parentFold` hosting the level below.  The final line of the
source is `parentFold && parentFold.open && this.parent.updateFold(parentFold, offset)`.
-/
def updateFoldGo (env : Env) : Nat → JSNum → Accordion → List (Nat × Accordion) → Accordion × List (Nat × Accordion)
  | i, off, a, [] => (updateFoldLocal env true i off a, [])
  | i, off, a, (j, p) :: rest =>
    let a' := updateFoldLocal env false i off a
    if parentFoldOpen p j then
      let r := updateFoldGo env j off p rest
      (a', (j, r.1) :: r.2)
    else (a', (j, p) :: rest)

/--
`updateFold` of the older variant (src/accordion.js lines 111-122): the same
body, but the final line is `parentFold && this.parent.updateFold(parentFold, offset)`
— no `parentFold.open` guard.
-/
def updateFoldGoOld (env : Env) : Nat → JSNum → Accordion → List (Nat × Accordion) → Accordion × List (Nat × Accordion)
  | i, off, a, [] => (updateFoldLocal env true i off a, [])
  | i, off, a, (j, p) :: rest =>
    let a' := updateFoldLocal env false i off a
    let r := updateFoldGoOld env j off p rest
    (a', (j, r.1) :: r.2)

/-- The fold walk of `update()` (src/src/accordion.js lines 155-162):
`i.y = y; i.fit(); y += i.height; height += i.height`. -/
def fitWalk : List Fold → Int → List Fold
  | [], _ => []
  | f :: fs, yc => ({ f with y := some yc } : Fold).fit :: fitWalk fs (yc + f.fitHeight)

/-- The `height` accumulator of the same walk: the sum of the fitted
heights. -/
def totalFit (fs : List Fold) : Int :=
  (fs.map Fold.fitHeight).sum

/--
`update()` of the newer variant (src/src/accordion.js lines 154-171) on a
whole ancestor chain: walk the folds assigning `y` and fitting, compute
`diff = height - this._height` (NaN when `_height` is still unset), then
`parentFold ? (parentFold.open && this.parent.updateFold(parentFold, diff)) : this.edgeCheck(diff)`,
and finally `this.height = height` through the conditional setter.
-/
def updateChain (env : Env) (a : Accordion) (anc : List (Nat × Accordion)) : Accordion × List (Nat × Accordion) :=
  let newH : Int := totalFit a.folds
  let a1 := { a with folds := fitWalk a.folds 0 }
  let diff : JSNum := jsub (some newH) a._height
  match anc with
  | [] => (setHeight (edgeCheck a1 env diff) (some newH), [])
  | (j, p) :: rest =>
    if parentFoldOpen p j then
      let r := updateFoldGo env j diff p rest
      (setHeight a1 (some newH), (j, r.1) :: r.2)
    else (setHeight a1 (some newH), (j, p) :: rest)

/-- The state of a freshly constructed accordion before `this.update()`
runs (src/src/accordion.js lines 24-56): `_height` unset, no style writes,
edge class not yet applied; `children` are the folds built from the
container's immediate child elements. -/
def initAccordion (children : List Fold) (edgeOn : Bool) : Accordion :=
  { folds := children
  , _height := none
  , edgeOn := edgeOn
  , hasEdge := false
  , styleWrites := [] }

/-- The geometric effect of the constructor for a root accordion (the
ancestor scan finds no enclosing fold, so no parent is recorded and no
nested-adjustment runs): build the folds, then `this.update()`. -/
def construct (children : List Fold) (edgeOn : Bool) (env : Env) : Accordion :=
  (updateChain env (initAccordion children edgeOn) []).1

/-- Sum of the folds' `height` properties, in NaN-propagating JS
arithmetic. -/
def heightsSum (fs : List Fold) : JSNum :=
  fs.foldr (fun f s => jadd f.height s) (some 0)

/-- Height conservation (spec section 8): the stored height equals the sum
of the folds' heights. -/
def conservA (a : Accordion) : Prop :=
  a._height = heightsSum a.folds

/-- Offset contiguity from a given running offset: each fold sits at the
running offset, and the next link starts at `y + height`. -/
def contigFrom : JSNum → List Fold → Prop
  | _, [] => True
  | c, f :: fs => f.y = c ∧ contigFrom (jadd f.y f.height) fs

/-- Offset contiguity (spec section 8): first fold at `y = 0`, each later
fold at `prev.y + prev.height`. -/
def contigA (a : Accordion) : Prop :=
  contigFrom (some 0) a.folds

/-- Everything of an accordion's state except the edge-class marker. -/
def geom (a : Accordion) : List Fold × JSNum × Bool × List Int :=
  (a.folds, a._height, a.edgeOn, a.styleWrites)

/-- All hosting folds along an ancestor chain are open. -/
def allOpen (anc : List (Nat × Accordion)) : Prop :=
  ∀ e ∈ anc, parentFoldOpen e.2 e.1 = true

/-- Every hosting fold along the chain exists and has an initialized
(non-NaN) height — true of any accordion after construction, whose
`update()` sets every fold height to its fitted value. -/
def hostsInit (anc : List (Nat × Accordion)) : Prop :=
  ∀ e ∈ anc, ((e.2.folds.get? e.1).bind Fold.height).isSome = true

/-- The `_height` value produced by `this.height += offset`: the setter is
fed `_height + offset` and skips the write when that is falsy (0 or NaN) or
unchanged. -/
def jsSetH (h off : JSNum) : JSNum :=
  match jadd h off with
  | none => h
  | some v => if v ≠ 0 ∧ some v ≠ h then some v else h

/-! ### Resize Coordinator (src/src/accordion.js lines 235-248) -/

/-- A resize handler: the raw per-event re-layout function, or a debounced
wrapper of it (the `debounce` helper is not under `src/`). -/
inductive Handler where
  | immediate : Handler
  | debounced : Int → Handler
deriving DecidableEq, Repr

/-- The relevant window state: the statically stored `Accordion.onResize`
handler, and the list of handlers currently registered on the window's
resize event. -/
structure ResizeState where
  onResize : Option Handler
  listeners : List Handler
deriving DecidableEq, Repr

/-- The JS values `setResizeRate` distinguishes: numbers, booleans, `null`,
`undefined` and `NaN`. -/
inductive JSDelay where
  | num : Int → JSDelay
  | bool : Bool → JSDelay
  | nullv : JSDelay
  | undef : JSDelay
  | nan : JSDelay
deriving DecidableEq, Repr

/-- JS `(+delay || 0)`: coerce to a number, replacing a falsy result (0 or
NaN) by 0. -/
def JSDelay.toNumOr0 : JSDelay → Int
  | num n => n
  | bool b => if b then 1 else 0
  | nullv => 0
  | undef => 0
  | nan => 0

/-- JS truthiness of a `JSDelay` value. -/
def JSDelay.isFalsy : JSDelay → Bool
  | num n => n == 0
  | bool b => !b
  | nullv => true
  | undef => true
  | nan => true

/-- `Accordion.setResizeRate(delay)` (src/src/accordion.js lines 235-248):
remove the currently installed listener, then — unless `delay` is the
literal `false` or coerces to a negative number — install a fresh handler,
debounced when the coerced delay is nonzero. -/
def setResizeRate (delay : JSDelay) (s : ResizeState) : ResizeState :=
  let ls := match s.onResize with
    | none => s.listeners
    | some h => s.listeners.erase h
  if delay = JSDelay.bool false then { s with listeners := ls }
  else
    let d := delay.toNumOr0
    if 0 ≤ d then
      let h := if d ≠ 0 then Handler.debounced d else Handler.immediate
      { onResize := some h, listeners := h :: ls }
    else { s with listeners := ls }

/-- At most one resize listener is registered, and it is the one stored in
`onResize`. -/
def atMostOne (s : ResizeState) : Prop :=
  s.listeners = [] ∨ ∃ h, s.onResize = some h ∧ s.listeners = [h]

/-- The body of the resize handler, `for(let i of accordions) i.parent || i.refresh(true)`:
given the registry's has-parent flags in creation order, the flags of the
accordions that get `refresh(true)`. -/
def handlerRefreshes (registry : List Bool) : List Bool :=
  registry.map (fun hasParent => !hasParent)

/-- Modelled from the spec: the `debounce` helper is not under `src/`.  For
a quiet period `d` and the (sorted) times of the resize events, the number
of times the wrapped function fires: once per event whose gap to the next
event is at least `d`, plus once for the final event. -/
def debounceFires (d : Int) : List Int → Nat
  | [] => 0
  | [_] => 1
  | t1 :: t2 :: ts => (if d ≤ t2 - t1 then 1 else 0) + debounceFires d (t2 :: ts)

/-! ### Concrete instances used by witnesses and counterexamples -/

/-- A viewport whose bottom edge sits at 100 with the container ending at
0. -/
def eEnv : Env := { boxBottom := 0, windowEdge := 100 }

/-- An open fold of height 40 sitting at the top of its accordion. -/
def openFold40 : Fold := { y := some 0, height := some 40, isOpen := true, fitHeight := 40 }

/-- A closed fold of height 40 sitting at the top of its accordion. -/
def closedFold40 : Fold := { y := some 0, height := some 40, isOpen := false, fitHeight := 40 }

/-- A one-fold accordion whose only fold is open. -/
def accOpen : Accordion :=
  { folds := [openFold40], _height := some 40, edgeOn := true, hasEdge := false, styleWrites := [] }

/-- A one-fold accordion whose only fold is closed. -/
def accClosed : Accordion :=
  { folds := [closedFold40], _height := some 40, edgeOn := true, hasEdge := false, styleWrites := [] }

/-- A settled one-fold accordion of height 5 (its stored height matches its
fold). -/
def accFive : Accordion :=
  { folds := [{ y := some 0, height := some 5, isOpen := true, fitHeight := 5 }]
  , _height := some 5, edgeOn := false, hasEdge := false, styleWrites := [] }

/-- A settled one-fold accordion of height 7. -/
def accSeven : Accordion :=
  { folds := [{ y := some 0, height := some 7, isOpen := true, fitHeight := 7 }]
  , _height := some 7, edgeOn := false, hasEdge := false, styleWrites := [] }

/-- A settled two-fold accordion: an open fold of height 40 followed by a
closed one. -/
def accTwo : Accordion :=
  { folds := [openFold40, { y := some 40, height := some 40, isOpen := false, fitHeight := 40 }]
  , _height := some 80, edgeOn := true, hasEdge := false, styleWrites := [] }

/-- Both invariants of spec section 8 at every level of a chain. -/
def invChain (a : Accordion) (anc : List (Nat × Accordion)) : Prop :=
  (conservA a ∧ contigA a) ∧ ∀ e ∈ anc, conservA e.2 ∧ contigA e.2

/-- Every fold index addressed along the chain actually exists (as it does
for real `parentFold` references). -/
def wfChain (i : Nat) (a : Accordion) (anc : List (Nat × Accordion)) : Prop :=
  i < a.folds.length ∧ ∀ e ∈ anc, e.1 < e.2.folds.length

/-- No level's stored height is driven exactly to the falsy value 0 by the
offset (the one case in which the conditional height setter drops the
update). -/
def nzChain (d : Int) (a : Accordion) (anc : List (Nat × Accordion)) : Prop :=
  (d = 0 ∨ jadd a._height (some d) ≠ some 0) ∧
  ∀ e ∈ anc, (d = 0 ∨ jadd e.2._height (some d) ≠ some 0)

/-! ### Arithmetic lemmas -/

@[simp] theorem jadd_some_some (x y : Int) : jadd (some x) (some y) = some (x + y) := rfl
@[simp] theorem jadd_none_left (b : JSNum) : jadd none b = none := rfl
@[simp] theorem jadd_none_right (a : JSNum) : jadd a none = none := by cases a <;> rfl
@[simp] theorem jadd_zero_right (a : JSNum) : jadd a (some 0) = a := by cases a <;> simp [jadd]

theorem jadd_assoc (a b c : JSNum) : jadd (jadd a b) c = jadd a (jadd b c) := by
  cases a <;> cases b <;> cases c <;> simp [jadd, Int.add_assoc]

theorem jadd_comm (a b : JSNum) : jadd a b = jadd b a := by
  cases a <;> cases b <;> simp [jadd, Int.add_comm]

theorem jadd_right_comm (a b c : JSNum) : jadd (jadd a b) c = jadd (jadd a c) b := by
  rw [jadd_assoc, jadd_assoc, jadd_comm b c]

/-! ### Projection lemmas for the basic operations -/

@[simp] theorem edgeCheck_folds (a : Accordion) (env : Env) (off : JSNum) :
    (edgeCheck a env off).folds = a.folds := by
  unfold edgeCheck; split <;> [skip; rfl]; split <;> [rfl; skip]; split <;> rfl

@[simp] theorem edgeCheck_hgt (a : Accordion) (env : Env) (off : JSNum) :
    (edgeCheck a env off)._height = a._height := by
  unfold edgeCheck; split <;> [skip; rfl]; split <;> [rfl; skip]; split <;> rfl

@[simp] theorem edgeCheck_edgeOn (a : Accordion) (env : Env) (off : JSNum) :
    (edgeCheck a env off).edgeOn = a.edgeOn := by
  unfold edgeCheck; split <;> [skip; rfl]; split <;> [rfl; skip]; split <;> rfl

@[simp] theorem edgeCheck_styleWrites (a : Accordion) (env : Env) (off : JSNum) :
    (edgeCheck a env off).styleWrites = a.styleWrites := by
  unfold edgeCheck; split <;> [skip; rfl]; split <;> [rfl; skip]; split <;> rfl

@[simp] theorem setHeight_folds (a : Accordion) (input : JSNum) :
    (setHeight a input).folds = a.folds := by
  unfold setHeight; cases input <;> simp only []; split <;> rfl

@[simp] theorem setHeight_hasEdge (a : Accordion) (input : JSNum) :
    (setHeight a input).hasEdge = a.hasEdge := by
  unfold setHeight; cases input <;> simp only []; split <;> rfl

@[simp] theorem setHeight_edgeOn (a : Accordion) (input : JSNum) :
    (setHeight a input).edgeOn = a.edgeOn := by
  unfold setHeight; cases input <;> simp only []; split <;> rfl

theorem setHeight_self_add (a : Accordion) (off : JSNum) :
    (setHeight a (jadd a._height off))._height = jsSetH a._height off := by
  unfold setHeight jsSetH
  cases h : jadd a._height off <;> simp only []
  split <;> rfl

@[simp] theorem updateFoldLocal_folds (env : Env) (root : Bool) (i : Nat) (off : JSNum) (a : Accordion) :
    (updateFoldLocal env root i off a).folds = addHeightAt i off (addYAfter i off a.folds) := by
  unfold updateFoldLocal
  cases root <;> simp

@[simp] theorem updateFoldLocal_hgt (env : Env) (root : Bool) (i : Nat) (off : JSNum) (a : Accordion) :
    (updateFoldLocal env root i off a)._height = jsSetH a._height off := by
  unfold updateFoldLocal
  cases root <;> simp [setHeight_self_add]

@[simp] theorem updateFoldLocal_edgeOn (env : Env) (root : Bool) (i : Nat) (off : JSNum) (a : Accordion) :
    (updateFoldLocal env root i off a).edgeOn = a.edgeOn := by
  unfold updateFoldLocal
  cases root <;> simp

@[simp] theorem updateFoldLocal_hasEdge_notRoot (env : Env) (i : Nat) (off : JSNum) (a : Accordion) :
    (updateFoldLocal env false i off a).hasEdge = a.hasEdge := by
  unfold updateFoldLocal
  simp

/-- The accordion an `updateFold` call starts on always receives exactly the
local body; whether the edge check runs inside it depends only on the
absence of ancestors. -/
theorem updateFoldGo_fst (env : Env) (i : Nat) (off : JSNum) (a : Accordion) (anc : List (Nat × Accordion)) :
    (updateFoldGo env i off a anc).1 = updateFoldLocal env anc.isEmpty i off a := by
  cases anc with
  | nil => rfl
  | cons e rest =>
    obtain ⟨j, p⟩ := e
    unfold updateFoldGo
    split <;> rfl

theorem updateFoldGoOld_fst (env : Env) (i : Nat) (off : JSNum) (a : Accordion) (anc : List (Nat × Accordion)) :
    (updateFoldGoOld env i off a anc).1 = updateFoldLocal env anc.isEmpty i off a := by
  cases anc with
  | nil => rfl
  | cons e rest =>
    obtain ⟨j, p⟩ := e
    rfl

/-- The delegation part of `updateFold` never depends on the local
accordion's state: all local adjustments are complete (and irrelevant to the
parent) before the recursive call. -/
theorem updateFoldGo_snd_congr (env : Env) (i : Nat) (off : JSNum) (a b : Accordion) (anc : List (Nat × Accordion)) :
    (updateFoldGo env i off a anc).2 = (updateFoldGo env i off b anc).2 := by
  cases anc with
  | nil => rfl
  | cons e rest =>
    obtain ⟨j, p⟩ := e
    unfold updateFoldGo
    split <;> rfl

/-! ### Lemmas about the fold-list transformations -/

@[simp] theorem addYAfter_nil (i : Nat) (off : JSNum) : addYAfter i off [] = [] := by
  cases i <;> rfl

@[simp] theorem addHeightAt_nil (i : Nat) (off : JSNum) : addHeightAt i off [] = [] := by
  cases i <;> rfl

@[simp] theorem contigFrom_nil (c : JSNum) : contigFrom c [] = True := rfl

@[simp] theorem contigFrom_cons (c : JSNum) (f : Fold) (fs : List Fold) :
    contigFrom c (f :: fs) = (f.y = c ∧ contigFrom (jadd f.y f.height) fs) := rfl

@[simp] theorem heightsSum_nil : heightsSum [] = some 0 := rfl

@[simp] theorem heightsSum_cons (f : Fold) (fs : List Fold) :
    heightsSum (f :: fs) = jadd f.height (heightsSum fs) := rfl

theorem heightsSum_map_y (g : Fold → JSNum) (fs : List Fold) :
    heightsSum (fs.map (fun f => { f with y := g f })) = heightsSum fs := by
  induction fs with
  | nil => rfl
  | cons f fs ih => simp [ih]

theorem heightsSum_addYAfter (i : Nat) (off : JSNum) (fs : List Fold) :
    heightsSum (addYAfter i off fs) = heightsSum fs := by
  induction fs generalizing i with
  | nil => simp
  | cons f fs ih =>
    cases i with
    | zero => simp [addYAfter, heightsSum_map_y]
    | succ n => simp [addYAfter, ih]

theorem heightsSum_addHeightAt (i : Nat) (off : JSNum) (fs : List Fold) (hi : i < fs.length) :
    heightsSum (addHeightAt i off fs) = jadd (heightsSum fs) off := by
  induction fs generalizing i with
  | nil => simp at hi
  | cons f fs ih =>
    cases i with
    | zero => simp [addHeightAt, jadd_right_comm]
    | succ n =>
      have hn : n < fs.length := by simpa using hi
      simp [addHeightAt, ih n hn, jadd_assoc]

theorem addYAfter_get?_le (fs : List Fold) (i k : Nat) (off : JSNum) (hk : k ≤ i) :
    (addYAfter i off fs).get? k = fs.get? k := by
  induction fs generalizing i k with
  | nil => simp
  | cons f fs ih =>
    cases i with
    | zero =>
      interval_cases k
      rfl
    | succ n =>
      cases k with
      | zero => rfl
      | succ m => simpa [addYAfter] using ih n m (Nat.le_of_succ_le_succ hk)

theorem addYAfter_get?_gt (fs : List Fold) (i k : Nat) (off : JSNum) (hk : i < k) :
    (addYAfter i off fs).get? k = (fs.get? k).map (fun g => { g with y := jadd g.y off }) := by
  induction fs generalizing i k with
  | nil => simp [addYAfter]
  | cons f fs ih =>
    cases i with
    | zero =>
      cases k with
      | zero => exact absurd hk (by omega)
      | succ m => simp [addYAfter]
    | succ n =>
      cases k with
      | zero => exact absurd hk (by omega)
      | succ m => simpa [addYAfter] using ih n m (Nat.lt_of_succ_lt_succ hk)

theorem addHeightAt_get?_self (fs : List Fold) (i : Nat) (off : JSNum) :
    (addHeightAt i off fs).get? i = (fs.get? i).map (fun f => { f with height := jadd f.height off }) := by
  induction fs generalizing i with
  | nil => simp [addHeightAt]
  | cons f fs ih =>
    cases i with
    | zero => simp [addHeightAt]
    | succ n => simpa [addHeightAt] using ih n

theorem addHeightAt_get?_ne (fs : List Fold) (i k : Nat) (off : JSNum) (hk : k ≠ i) :
    (addHeightAt i off fs).get? k = fs.get? k := by
  induction fs generalizing i k with
  | nil => simp
  | cons f fs ih =>
    cases i with
    | zero =>
      cases k with
      | zero => exact absurd rfl hk
      | succ m => rfl
    | succ n =>
      cases k with
      | zero => rfl
      | succ m => simpa [addHeightAt] using ih n m (by omega)

/-! ### Contiguity lemmas -/

theorem contigFrom_shift (off : JSNum) (d : JSNum) (fs : List Fold) (h : contigFrom d fs) :
    contigFrom (jadd d off) (fs.map (fun g => { g with y := jadd g.y off })) := by
  induction fs generalizing d with
  | nil => trivial
  | cons g fs ih =>
    obtain ⟨hy, hrest⟩ := h
    refine ⟨show jadd g.y off = jadd d off by rw [hy], ?_⟩
    have := ih (jadd g.y g.height) hrest
    simpa [jadd_right_comm] using this

theorem contigFrom_updateFold (off : JSNum) (i : Nat) (c : JSNum) (fs : List Fold)
    (h : contigFrom c fs) :
    contigFrom c (addHeightAt i off (addYAfter i off fs)) := by
  induction fs generalizing i c with
  | nil => simp
  | cons f fs ih =>
    obtain ⟨hy, hrest⟩ := h
    cases i with
    | zero =>
      refine ⟨hy, ?_⟩
      have := contigFrom_shift off (jadd f.y f.height) fs hrest
      simpa [addYAfter, addHeightAt, jadd_assoc] using this
    | succ n =>
      exact ⟨hy, ih n (jadd f.y f.height) hrest⟩

/-! ### Lemmas about the update walk -/

@[simp] theorem totalFit_nil : totalFit [] = 0 := rfl

@[simp] theorem totalFit_cons (f : Fold) (fs : List Fold) :
    totalFit (f :: fs) = f.fitHeight + totalFit fs := rfl

@[simp] theorem fitWalk_nil (y : Int) : fitWalk [] y = [] := rfl

theorem fitWalk_cons (f : Fold) (fs : List Fold) (y : Int) :
    fitWalk (f :: fs) y =
      { f with y := some y, height := some f.fitHeight } :: fitWalk fs (y + f.fitHeight) := rfl

theorem fitWalk_fitWalk (fs : List Fold) (y : Int) :
    fitWalk (fitWalk fs y) y = fitWalk fs y := by
  induction fs generalizing y with
  | nil => rfl
  | cons f fs ih => simp [fitWalk_cons, Fold.fit, ih]

theorem contigFrom_fitWalk (fs : List Fold) (y : Int) :
    contigFrom (some y) (fitWalk fs y) := by
  induction fs generalizing y with
  | nil => trivial
  | cons f fs ih =>
    exact ⟨rfl, by simpa [fitWalk_cons, Fold.fit, jadd] using ih (y + f.fitHeight)⟩

theorem heightsSum_fitWalk (fs : List Fold) (y : Int) :
    heightsSum (fitWalk fs y) = some (totalFit fs) := by
  induction fs generalizing y with
  | nil => rfl
  | cons f fs ih => simp [fitWalk_cons, Fold.fit, ih, jadd]

theorem totalFit_fitWalk (fs : List Fold) (y : Int) :
    totalFit (fitWalk fs y) = totalFit fs := by
  induction fs generalizing y with
  | nil => rfl
  | cons f fs ih => simp [fitWalk_cons, Fold.fit, ih]

/-! ### Lemmas about `setHeight` and `updateChain` -/

theorem setHeight_some_hgt (a : Accordion) (v : Int) :
    (setHeight a (some v))._height = if v = 0 then a._height else some v := by
  unfold setHeight
  by_cases hv : v = 0
  · simp [hv]
  · by_cases he : some v = a._height
    · simp [hv, he]
    · simp [hv, he]

theorem updateChain_fst_folds (env : Env) (a : Accordion) (anc : List (Nat × Accordion)) :
    (updateChain env a anc).1.folds = fitWalk a.folds 0 := by
  cases anc with
  | nil => simp [updateChain]
  | cons e rest =>
    obtain ⟨j, p⟩ := e
    by_cases hpo : parentFoldOpen p j <;> simp [updateChain, hpo]

theorem updateChain_fst_hgt (env : Env) (a : Accordion) (anc : List (Nat × Accordion)) :
    (updateChain env a anc).1._height =
      if totalFit a.folds = 0 then a._height else some (totalFit a.folds) := by
  cases anc with
  | nil => simp [updateChain, setHeight_some_hgt]
  | cons e rest =>
    obtain ⟨j, p⟩ := e
    by_cases hpo : parentFoldOpen p j <;> simp [updateChain, hpo, setHeight_some_hgt]

/-! ### Chain lemmas: stopping at a closed fold -/

theorem updateFoldGo_snd_drop (env : Env) (off : JSNum) :
    ∀ (anc : List (Nat × Accordion)) (i : Nat) (a : Accordion) (k j : Nat) (p : Accordion),
      anc.get? k = some (j, p) → parentFoldOpen p j = false →
      (updateFoldGo env i off a anc).2.drop k = anc.drop k := by
  intro anc
  induction anc with
  | nil => intro i a k j p hk; simp at hk
  | cons e rest ih =>
    obtain ⟨j0, p0⟩ := e
    intro i a k j p hk hclosed
    cases k with
    | zero =>
      simp at hk
      obtain ⟨hj, hp⟩ := hk
      subst hj; subst hp
      simp [updateFoldGo, hclosed]
    | succ m =>
      by_cases hpo : parentFoldOpen p0 j0
      · have := ih j0 p0 m j p (by simpa using hk) hclosed
        simp [updateFoldGo, hpo, this]
      · simp [updateFoldGo, hpo]

theorem updateChain_snd_drop (env : Env) (a : Accordion) (anc : List (Nat × Accordion))
    (k j : Nat) (p : Accordion)
    (hk : anc.get? k = some (j, p)) (hclosed : parentFoldOpen p j = false) :
    (updateChain env a anc).2.drop k = anc.drop k := by
  cases anc with
  | nil => simp at hk
  | cons e rest =>
    obtain ⟨j0, p0⟩ := e
    cases k with
    | zero =>
      simp at hk
      obtain ⟨hj, hp⟩ := hk
      subst hj; subst hp
      simp [updateChain, hclosed]
    | succ m =>
      by_cases hpo : parentFoldOpen p0 j0
      · have := updateFoldGo_snd_drop env (jsub (some (totalFit a.folds)) a._height)
          rest j0 p0 m j p (by simpa using hk) hclosed
        simp [updateChain, hpo, this]
      · simp [updateChain, hpo]

/-- C1: upward propagation stops at the first closed ancestor fold — if the
hosting fold of chain position `k` is closed, neither `updateFold` nor
`update` alters any accordion from position `k` upward (in particular a
closed `parentFold` leaves the grandparent accordion's height untouched),
because both delegate to `parent.updateFold` only when `parentFold.open` is
true. -/
theorem updateFold_stops_at_closed_ancestor (env : Env) (i : Nat) (off : JSNum) (a : Accordion)
    (anc : List (Nat × Accordion)) (k j : Nat) (p : Accordion)
    (hk : anc.get? k = some (j, p)) (hclosed : parentFoldOpen p j = false) :
    (updateFoldGo env i off a anc).2.drop k = anc.drop k ∧
    (updateChain env a anc).2.drop k = anc.drop k :=
  ⟨updateFoldGo_snd_drop env off anc i a k j p hk hclosed,
   updateChain_snd_drop env a anc k j p hk hclosed⟩

/-- C1 witness: a child accordion nested in the closed fold of `accClosed`,
which itself is nested in `accOpen`; `updateFold` with offset 3 and
`update` leave the closed host and the grandparent untouched. -/
theorem updateFold_stops_at_closed_ancestor_witness :
    [((0 : Nat), accClosed), ((0 : Nat), accOpen)].get? 0 = some (0, accClosed) ∧
    parentFoldOpen accClosed 0 = false ∧
    ((updateFoldGo eEnv 0 (some 3) accOpen [(0, accClosed), (0, accOpen)]).2.drop 0 =
        [(0, accClosed), (0, accOpen)].drop 0 ∧
      (updateChain eEnv accOpen [(0, accClosed), (0, accOpen)]).2.drop 0 =
        [(0, accClosed), (0, accOpen)].drop 0) :=
  ⟨by decide, by decide,
   updateFold_stops_at_closed_ancestor eEnv 0 (some 3) accOpen
     [(0, accClosed), (0, accOpen)] 0 0 accClosed (by decide) (by decide)⟩

/-! ### Zero-offset lemmas -/

theorem addYAfter_zero (i : Nat) (fs : List Fold) : addYAfter i (some 0) fs = fs := by
  induction fs generalizing i with
  | nil => simp
  | cons f fs ih =>
    cases i with
    | zero =>
      show f :: fs.map (fun g => { g with y := jadd g.y (some 0) }) = f :: fs
      have hfn : (fun g : Fold => { g with y := jadd g.y (some 0) }) = fun g => g := by
        funext g
        simp
      rw [hfn, List.map_id']
    | succ n =>
      show f :: addYAfter n (some 0) fs = f :: fs
      rw [ih]

theorem addHeightAt_zero (i : Nat) (fs : List Fold) : addHeightAt i (some 0) fs = fs := by
  induction fs generalizing i with
  | nil => simp
  | cons f fs ih =>
    cases i with
    | zero =>
      show ({ f with height := jadd f.height (some 0) } : Fold) :: fs = f :: fs
      simp
    | succ n =>
      show f :: addHeightAt n (some 0) fs = f :: fs
      rw [ih]

theorem setHeight_self (a : Accordion) : setHeight a a._height = a := by
  unfold setHeight
  cases h : a._height with
  | none => rfl
  | some v => simp [h]

theorem edgeCheck_setFolds (a : Accordion) (X : List Fold) (env : Env) (off : JSNum) :
    edgeCheck { a with folds := X } env off = { edgeCheck a env off with folds := X } := by
  by_cases h1 : a.edgeOn = true <;>
  by_cases h2 : env.boxBottom + jsOr0 off < env.windowEdge <;>
  by_cases h3 : env.boxBottom > env.windowEdge <;>
  simp [edgeCheck, h1, h2, h3]

theorem updateFoldLocal_eq (env : Env) (root : Bool) (i : Nat) (off : JSNum) (a : Accordion) :
    updateFoldLocal env root i off a =
      setHeight { (if root then edgeCheck a env off else a) with
          folds := addHeightAt i off (addYAfter i off a.folds) } (jadd a._height off) := by
  cases root with
  | false => rfl
  | true =>
    show setHeight { edgeCheck { a with folds := addYAfter i off a.folds } env off with
        folds := addHeightAt i off (edgeCheck { a with folds := addYAfter i off a.folds } env off).folds }
        (jadd (edgeCheck { a with folds := addYAfter i off a.folds } env off)._height off)
      = setHeight { edgeCheck a env off with folds := addHeightAt i off (addYAfter i off a.folds) }
        (jadd a._height off)
    rw [edgeCheck_setFolds]
    simp [edgeCheck_hgt]

theorem updateFoldLocal_zero (env : Env) (root : Bool) (i : Nat) (a : Accordion) :
    updateFoldLocal env root i (some 0) a = if root then edgeCheck a env (some 0) else a := by
  rw [updateFoldLocal_eq, addYAfter_zero, addHeightAt_zero, jadd_zero_right]
  cases root with
  | false => exact setHeight_self a
  | true =>
    show setHeight { edgeCheck a env (some 0) with folds := a.folds } a._height
        = edgeCheck a env (some 0)
    have hf : a.folds = (edgeCheck a env (some 0)).folds := (edgeCheck_folds a env (some 0)).symm
    have hh : a._height = (edgeCheck a env (some 0))._height := (edgeCheck_hgt a env (some 0)).symm
    rw [hf, hh]
    exact setHeight_self (edgeCheck a env (some 0))

@[simp] theorem geom_edgeCheck (a : Accordion) (env : Env) (off : JSNum) :
    geom (edgeCheck a env off) = geom a := by
  simp [geom]

/-- C10: `updateFold` with offset 0 is a geometric identity — every fold's
`y` and `height`, every accordion's stored height and style writes are
unchanged along the whole ancestor chain; the only field that may change is
the root's edge-visibility class, and every non-root level is left entirely
unchanged. -/
theorem updateFold_zero_identity (env : Env) (i : Nat) (a : Accordion)
    (anc : List (Nat × Accordion)) :
    geom (updateFoldGo env i (some 0) a anc).1 = geom a ∧
    (updateFoldGo env i (some 0) a anc).2.map (fun e => (e.1, geom e.2)) =
      anc.map (fun e => (e.1, geom e.2)) ∧
    (∀ k, k + 1 < anc.length → (updateFoldGo env i (some 0) a anc).2.get? k = anc.get? k) ∧
    (anc = [] ∨ (updateFoldGo env i (some 0) a anc).1 = a) := by
  induction anc generalizing i a with
  | nil =>
    refine ⟨?_, rfl, ?_, Or.inl rfl⟩
    · show geom (updateFoldLocal env true i (some 0) a) = geom a
      rw [updateFoldLocal_zero]
      simp
    · intro k hk
      simp at hk
  | cons e rest ih =>
    obtain ⟨j, p⟩ := e
    have hlocal : updateFoldLocal env false i (some 0) a = a := by
      rw [updateFoldLocal_zero]; simp
    by_cases hpo : parentFoldOpen p j
    · obtain ⟨ih1, ih2, ih3, ih4⟩ := ih j p
      refine ⟨?_, ?_, ?_, Or.inr ?_⟩
      · simp [updateFoldGo, hpo, hlocal]
      · simp only [updateFoldGo, hpo, if_pos]
        simp [ih1, ih2]
      · intro k hk
        simp only [updateFoldGo, hpo, if_pos]
        cases k with
        | zero =>
          have hrest : rest ≠ [] := by
            intro h
            rw [h] at hk
            simp at hk
          rcases ih4 with h | h
          · exact absurd h hrest
          · simp [h]
        | succ m =>
          have hm : m + 1 < rest.length := by simpa using hk
          simpa using ih3 m hm
      · simp [updateFoldGo, hpo, hlocal]
    · refine ⟨?_, ?_, ?_, Or.inr ?_⟩ <;>
        simp [updateFoldGo, hpo, hlocal]

/-- C10 witness: along the two-level chain rooted at `accOpen`, a zero
offset changes no geometry and no non-root level. -/
theorem updateFold_zero_identity_witness :
    geom (updateFoldGo eEnv 0 (some 0) accOpen [(0, accOpen)]).1 = geom accOpen ∧
    (updateFoldGo eEnv 0 (some 0) accOpen [(0, accOpen)]).2.map (fun e => (e.1, geom e.2)) =
      [((0 : Nat), accOpen)].map (fun e => (e.1, geom e.2)) ∧
    (∀ k, k + 1 < [((0 : Nat), accOpen)].length →
      (updateFoldGo eEnv 0 (some 0) accOpen [(0, accOpen)]).2.get? k =
        [((0 : Nat), accOpen)].get? k) ∧
    ([((0 : Nat), accOpen)] = [] ∨ (updateFoldGo eEnv 0 (some 0) accOpen [(0, accOpen)]).1 = accOpen) :=
  updateFold_zero_identity eEnv 0 accOpen [(0, accOpen)]

/-- C5: `edgeCheck(offset)` is a no-op when `edgeClass` is falsy; otherwise
it adds the edge class when the current bottom plus the (falsy-coerced)
offset is below the viewport edge, removes it only when the current bottom
already exceeds the viewport edge, and leaves the class untouched
otherwise; in particular, for a container whose bottom sits 10px above the
viewport bottom, `edgeCheck(0)` enables the class and a following
`edgeCheck(50)` leaves it enabled. -/
theorem edgeCheck_spec (a : Accordion) (env : Env) (off : JSNum) :
    (a.edgeOn = false → edgeCheck a env off = a) ∧
    (a.edgeOn = true →
      (env.boxBottom + jsOr0 off < env.windowEdge →
        edgeCheck a env off = { a with hasEdge := true }) ∧
      (¬ env.boxBottom + jsOr0 off < env.windowEdge → env.boxBottom > env.windowEdge →
        edgeCheck a env off = { a with hasEdge := false }) ∧
      (¬ env.boxBottom + jsOr0 off < env.windowEdge → ¬ env.boxBottom > env.windowEdge →
        edgeCheck a env off = a)) ∧
    (a.edgeOn = true → ∀ we : Int,
      (edgeCheck a { boxBottom := we - 10, windowEdge := we } (some 0)).hasEdge = true ∧
      (edgeCheck (edgeCheck a { boxBottom := we - 10, windowEdge := we } (some 0))
          { boxBottom := we - 10, windowEdge := we } (some 50)).hasEdge = true) := by
  refine ⟨?_, ?_, ?_⟩
  · intro h
    simp [edgeCheck, h]
  · intro h
    refine ⟨?_, ?_, ?_⟩
    · intro h2
      simp [edgeCheck, h, h2]
    · intro h2 h3
      simp [edgeCheck, h, h2, h3]
    · intro h2 h3
      simp [edgeCheck, h, h2, h3]
  · intro h we
    have e1 : edgeCheck a { boxBottom := we - 10, windowEdge := we } (some 0)
        = { a with hasEdge := true } := by
      have hc : we - 10 + jsOr0 (some 0) < we := by
        simp [jsOr0, truthy]
      simp [edgeCheck, h, hc]
    refine ⟨by rw [e1], ?_⟩
    rw [e1]
    have hc1 : ¬ (we - 10 + jsOr0 (some 50) < we) := by
      simp [jsOr0, truthy]
      omega
    have hc2 : ¬ ((we : Int) - 10 > we) := by omega
    simp [edgeCheck, h, hc1, hc2]

/-- C5 witness: `accOpen` (edge class enabled, bottom at 0, viewport edge
at 100) gets the class added by `edgeCheck 0`. -/
theorem edgeCheck_spec_witness :
    accOpen.edgeOn = true ∧
    eEnv.boxBottom + jsOr0 (some 0) < eEnv.windowEdge ∧
    edgeCheck accOpen eEnv (some 0) = { accOpen with hasEdge := true } :=
  ⟨by decide, by decide, ((edgeCheck_spec accOpen eEnv (some 0)).2.1 (by decide)).1 (by decide)⟩

/-- C7: the `height` setter writes the container style and updates the
stored height exactly when its input is truthy and differs from the stored
height; falsy or unchanged inputs leave both untouched. -/
theorem height_setter_spec (a : Accordion) (input : JSNum) :
    (truthy input = true → input ≠ a._height →
      setHeight a input = { a with _height := input, styleWrites := input.getD 0 :: a.styleWrites }) ∧
    (truthy input = false → setHeight a input = a) ∧
    (input = a._height → setHeight a input = a) := by
  refine ⟨?_, ?_, ?_⟩
  · intro ht hne
    cases input with
    | none => simp [truthy] at ht
    | some v =>
      have hv : v ≠ 0 := by simpa [truthy] using ht
      simp [setHeight, hv, hne]
  · intro ht
    cases input with
    | none => rfl
    | some v =>
      have hv : v = 0 := by simpa [truthy] using ht
      simp [setHeight, hv]
  · intro he
    cases input with
    | none => rfl
    | some v => simp [setHeight, he]

/-- C7 witness: a truthy, changed input (9 against stored 5) performs the
style write and stores the new height. -/
theorem height_setter_spec_witness :
    truthy (some 9) = true ∧ (some 9 : JSNum) ≠ accFive._height ∧
    setHeight accFive (some 9) =
      { accFive with _height := some 9, styleWrites := (some (9 : Int)).getD 0 :: accFive.styleWrites } :=
  ⟨by decide, by decide, (height_setter_spec accFive (some 9)).1 (by decide) (by decide)⟩

/-- C6: `update()` is idempotent — re-running it with unchanged fitted
content sizes reproduces the same stored height, the same folds, and hence
the same `y` for every fold. -/
theorem update_idempotent (env : Env) (a : Accordion) (anc : List (Nat × Accordion)) :
    (updateChain env (updateChain env a anc).1 (updateChain env a anc).2).1._height
      = (updateChain env a anc).1._height ∧
    (updateChain env (updateChain env a anc).1 (updateChain env a anc).2).1.folds
      = (updateChain env a anc).1.folds ∧
    (updateChain env (updateChain env a anc).1 (updateChain env a anc).2).1.folds.map Fold.y
      = (updateChain env a anc).1.folds.map Fold.y := by
  have hf1 := updateChain_fst_folds env a anc
  have hf2 := updateChain_fst_folds env (updateChain env a anc).1 (updateChain env a anc).2
  have hfolds : (updateChain env (updateChain env a anc).1 (updateChain env a anc).2).1.folds
      = (updateChain env a anc).1.folds := by
    rw [hf2, hf1, fitWalk_fitWalk]
  refine ⟨?_, hfolds, by rw [hfolds]⟩
  rw [updateChain_fst_hgt env (updateChain env a anc).1 (updateChain env a anc).2, hf1,
    totalFit_fitWalk]
  by_cases h0 : totalFit a.folds = 0
  · simp [h0]
  · simp [h0, updateChain_fst_hgt]

/-! ### Empty construction -/

theorem edgeCheck_off_congr (a : Accordion) (env : Env) (off off' : JSNum)
    (h : jsOr0 off = jsOr0 off') : edgeCheck a env off = edgeCheck a env off' := by
  unfold edgeCheck
  rw [h]

theorem setHeight_some_zero (a : Accordion) : setHeight a (some 0) = a := by
  simp [setHeight]

/-- C4 counterexample: constructing from a container with zero children
leaves the stored height unset (the JS getter yields `undefined`), not 0 —
the computed total 0 is falsy, so the conditional height setter never
fires. -/
theorem construct_empty_height_unset :
    (construct [] true eEnv)._height = none ∧ (construct [] true eEnv)._height ≠ some 0 := by
  constructor <;> decide

/-- C4 (amended): constructing an `Accordion` from a container with zero
children is well defined: `folds` is empty, no style write happens, the
stored height stays unset (the setter skips the falsy 0, so the `height`
getter yields `undefined`, not 0), and the whole construction reduces to a
pure edge-visibility check whose NaN offset (`0 - undefined`) behaves as
offset 0 through the `offset || 0` coercion. -/
theorem construct_empty_spec (e : Bool) (env : Env) :
    construct [] e env = edgeCheck (initAccordion [] e) env (some 0) ∧
    (construct [] e env).folds = [] ∧
    (construct [] e env)._height = none ∧
    (construct [] e env).styleWrites = [] := by
  have h1 : construct [] e env = edgeCheck (initAccordion [] e) env (some 0) := by
    show setHeight (edgeCheck (initAccordion [] e) env (jsub (some 0) none)) (some 0)
        = edgeCheck (initAccordion [] e) env (some 0)
    rw [setHeight_some_zero]
    exact edgeCheck_off_congr _ _ _ _ (by decide)
  refine ⟨h1, ?_, ?_, ?_⟩ <;> rw [h1] <;> simp [initAccordion]

theorem updateFoldLocal_hasEdge_root (env : Env) (i : Nat) (off : JSNum) (a : Accordion) :
    (updateFoldLocal env true i off a).hasEdge = (edgeCheck a env off).hasEdge := by
  rw [updateFoldLocal_eq]
  simp

/-- C2 counterexample: `updateFold` does not always add the offset to the
accordion's own stored height — shrinking `accSeven` by its full height
feeds the setter the falsy value 0, so the stored height stays 7 instead of
becoming 0. -/
theorem updateFold_skips_zero_height_write :
    ((updateFoldGo eEnv 0 (some (-7)) accSeven []).1)._height = some 7 ∧
    jadd accSeven._height (some (-7)) = some 0 ∧
    ((updateFoldGo eEnv 0 (some (-7)) accSeven []).1)._height ≠ jadd accSeven._height (some (-7)) := by
  refine ⟨by decide, by decide, by decide⟩

/-- C2 (amended): `updateFold(fold, offset)` adds `offset` to the `y` of
every sibling after the fold, leaves earlier siblings and the fold's own `y`
unchanged, adds `offset` to the fold's height, and feeds `_height + offset`
to the conditional height setter (which skips falsy or unchanged results,
so the stored height is not always increased by `offset`); the
edge-visibility check runs exactly when there is no `parentFold`, and the
delegation to the parent is independent of (hence strictly after) all local
adjustments. -/
theorem updateFold_local_effects (env : Env) (i k : Nat) (off : JSNum) (a : Accordion)
    (anc : List (Nat × Accordion)) :
    (i < k → (updateFoldGo env i off a anc).1.folds.get? k
        = (a.folds.get? k).map (fun f => { f with y := jadd f.y off })) ∧
    (k < i → (updateFoldGo env i off a anc).1.folds.get? k = a.folds.get? k) ∧
    ((updateFoldGo env i off a anc).1.folds.get? i
        = (a.folds.get? i).map (fun f => { f with height := jadd f.height off })) ∧
    ((updateFoldGo env i off a anc).1._height = jsSetH a._height off) ∧
    (anc ≠ [] → (updateFoldGo env i off a anc).1.hasEdge = a.hasEdge) ∧
    (anc = [] → (updateFoldGo env i off a anc).1.hasEdge = (edgeCheck a env off).hasEdge) ∧
    (∀ b : Accordion, (updateFoldGo env i off b anc).2 = (updateFoldGo env i off a anc).2) := by
  refine ⟨?_, ?_, ?_, ?_, ?_, ?_, fun b => updateFoldGo_snd_congr env i off b a anc⟩
  · intro hik
    rw [updateFoldGo_fst, updateFoldLocal_folds,
      addHeightAt_get?_ne _ i k off (by omega), addYAfter_get?_gt _ i k off hik]
  · intro hki
    rw [updateFoldGo_fst, updateFoldLocal_folds,
      addHeightAt_get?_ne _ i k off (by omega), addYAfter_get?_le _ i k off (by omega)]
  · rw [updateFoldGo_fst, updateFoldLocal_folds, addHeightAt_get?_self,
      addYAfter_get?_le _ i i off (le_refl i)]
  · rw [updateFoldGo_fst, updateFoldLocal_hgt]
  · intro hne
    cases anc with
    | nil => exact absurd rfl hne
    | cons e rest =>
      rw [updateFoldGo_fst]
      exact updateFoldLocal_hasEdge_notRoot env i off a
  · intro hnil
    subst hnil
    rw [updateFoldGo_fst]
    exact updateFoldLocal_hasEdge_root env i off a

/-- C2 witness: on the two-fold accordion `accTwo` with offset 3, the later
sibling's `y` is shifted and the (rootless) edge check runs. -/
theorem updateFold_local_effects_witness :
    (0 : Nat) < 1 ∧
    (updateFoldGo eEnv 0 (some 3) accTwo []).1.folds.get? 1
      = (accTwo.folds.get? 1).map (fun f => { f with y := jadd f.y (some 3) }) ∧
    (updateFoldGo eEnv 0 (some 3) accTwo []).1.hasEdge
      = (edgeCheck accTwo eEnv (some 3)).hasEdge :=
  ⟨by decide, (updateFold_local_effects eEnv 0 1 (some 3) accTwo []).1 (by decide),
   (updateFold_local_effects eEnv 0 1 (some 3) accTwo []).2.2.2.2.2.1 rfl⟩

/-! ### Invariant preservation -/

theorem addYAfter_length (i : Nat) (off : JSNum) (fs : List Fold) :
    (addYAfter i off fs).length = fs.length := by
  induction fs generalizing i with
  | nil => simp
  | cons f fs ih =>
    cases i with
    | zero => simp [addYAfter]
    | succ n => simp [addYAfter, ih]

theorem conserv_local (env : Env) (root : Bool) (i : Nat) (d : Int) (a : Accordion)
    (hi : i < a.folds.length) (hc : conservA a)
    (hnz : d = 0 ∨ jadd a._height (some d) ≠ some 0) :
    conservA (updateFoldLocal env root i (some d) a) := by
  unfold conservA at *
  rw [updateFoldLocal_folds, updateFoldLocal_hgt,
    heightsSum_addHeightAt _ _ _ (by rw [addYAfter_length]; exact hi),
    heightsSum_addYAfter, ← hc]
  cases h : a._height with
  | none => rfl
  | some v =>
    by_cases hd : d = 0
    · subst hd
      simp [jsSetH, jadd]
    · have hvd : v + d ≠ 0 := by
        rcases hnz with h0 | h0
        · exact absurd h0 hd
        · rw [h] at h0
          simpa [jadd] using h0
      have h2 : some (v + d) ≠ some v := by
        simp
        omega
      simp [jsSetH, jadd, hvd, h2]

theorem contig_local (env : Env) (root : Bool) (i : Nat) (off : JSNum) (a : Accordion)
    (hg : contigA a) : contigA (updateFoldLocal env root i off a) := by
  unfold contigA at *
  rw [updateFoldLocal_folds]
  exact contigFrom_updateFold off i (some 0) a.folds hg

theorem updateFoldGo_snd_cons_open (env : Env) (i : Nat) (off : JSNum) (a : Accordion)
    (j : Nat) (p : Accordion) (rest : List (Nat × Accordion))
    (hpo : parentFoldOpen p j = true) :
    (updateFoldGo env i off a ((j, p) :: rest)).2
      = (j, (updateFoldGo env j off p rest).1) :: (updateFoldGo env j off p rest).2 := by
  simp [updateFoldGo, hpo]

theorem updateFoldGo_snd_cons_closed (env : Env) (i : Nat) (off : JSNum) (a : Accordion)
    (j : Nat) (p : Accordion) (rest : List (Nat × Accordion))
    (hpo : parentFoldOpen p j = false) :
    (updateFoldGo env i off a ((j, p) :: rest)).2 = (j, p) :: rest := by
  simp [updateFoldGo, hpo]

theorem updateFoldGo_preserves (env : Env) (d : Int) :
    ∀ (anc : List (Nat × Accordion)) (i : Nat) (a : Accordion),
      wfChain i a anc → invChain a anc → nzChain d a anc →
      invChain (updateFoldGo env i (some d) a anc).1 (updateFoldGo env i (some d) a anc).2 := by
  intro anc
  induction anc with
  | nil =>
    intro i a hwf hinv hnz
    refine ⟨⟨conserv_local env true i d a hwf.1 hinv.1.1 hnz.1,
      contig_local env true i (some d) a hinv.1.2⟩, ?_⟩
    intro e he
    simp [updateFoldGo] at he
  | cons e0 rest ih =>
    obtain ⟨j, p⟩ := e0
    intro i a hwf hinv hnz
    obtain ⟨hi, hall⟩ := hwf
    obtain ⟨⟨hca, hga⟩, hanc⟩ := hinv
    obtain ⟨hnza, hnzanc⟩ := hnz
    have hfst : (updateFoldGo env i (some d) a ((j, p) :: rest)).1
        = updateFoldLocal env false i (some d) a := by
      simpa using updateFoldGo_fst env i (some d) a ((j, p) :: rest)
    have ha' : conservA (updateFoldLocal env false i (some d) a) ∧
        contigA (updateFoldLocal env false i (some d) a) :=
      ⟨conserv_local env false i d a hi hca hnza, contig_local env false i (some d) a hga⟩
    by_cases hpo : parentFoldOpen p j
    · have hsnd := updateFoldGo_snd_cons_open env i (some d) a j p rest hpo
      have hrec := ih j p
        ⟨hall (j, p) (by simp), fun e he => hall e (by simp [he])⟩
        ⟨hanc (j, p) (by simp), fun e he => hanc e (by simp [he])⟩
        ⟨hnzanc (j, p) (by simp), fun e he => hnzanc e (by simp [he])⟩
      rw [hfst, hsnd]
      refine ⟨ha', ?_⟩
      intro e he
      rcases List.mem_cons.mp he with he | he
      · subst he
        exact hrec.1
      · exact hrec.2 e he
    · have hpo2 : parentFoldOpen p j = false := by simpa using hpo
      have hsnd := updateFoldGo_snd_cons_closed env i (some d) a j p rest hpo2
      rw [hfst, hsnd]
      refine ⟨ha', ?_⟩
      intro e he
      rcases List.mem_cons.mp he with he | he
      · subst he
        exact hanc (j, p) (by simp)
      · exact hanc e (by simp [he])

/-- C3 counterexample: conservation is not preserved by `updateFold` for
every offset — shrinking `accFive` (settled at height 5) by 5 drives the
fold sum to 0, but the conditional height setter skips the falsy write, so
the stored height stays 5 and no longer equals the sum of the folds. -/
theorem updateFold_breaks_conservation :
    conservA accFive ∧ ¬ conservA (updateFoldGo eEnv 0 (some (-5)) accFive []).1 := by
  constructor
  · show accFive._height = heightsSum accFive.folds
    decide
  · show ¬ (updateFoldGo eEnv 0 (some (-5)) accFive []).1._height
        = heightsSum (updateFoldGo eEnv 0 (some (-5)) accFive []).1.folds
    decide

/-- C3 (amended): offset contiguity is established by `update()` and
preserved by `updateFold` unconditionally; height conservation is
established by `update()` whenever the computed total is nonzero, and
preserved along the whole chain by `updateFold` whenever no level's stored
height is driven exactly to the falsy value 0 (in that case the conditional
height setter skips the write and conservation can break). -/
theorem invariants_hold_and_preserved (env : Env) (a : Accordion) (anc : List (Nat × Accordion))
    (i : Nat) (d : Int) :
    contigA (updateChain env a anc).1 ∧
    (totalFit a.folds ≠ 0 → conservA (updateChain env a anc).1) ∧
    (wfChain i a anc → invChain a anc → nzChain d a anc →
      invChain (updateFoldGo env i (some d) a anc).1 (updateFoldGo env i (some d) a anc).2) := by
  refine ⟨?_, ?_, fun hwf hinv hnz => updateFoldGo_preserves env d anc i a hwf hinv hnz⟩
  · show contigFrom (some 0) (updateChain env a anc).1.folds
    rw [updateChain_fst_folds]
    exact contigFrom_fitWalk a.folds 0
  · intro h0
    show (updateChain env a anc).1._height = heightsSum (updateChain env a anc).1.folds
    rw [updateChain_fst_hgt, updateChain_fst_folds, heightsSum_fitWalk]
    simp [h0]

/-- C3 witness: on the settled two-fold accordion `accTwo` with offset 3,
the hypotheses hold and both invariants survive `updateFold`. -/
theorem invariants_hold_and_preserved_witness :
    wfChain 0 accTwo [] ∧ invChain accTwo [] ∧ nzChain 3 accTwo [] ∧
    invChain (updateFoldGo eEnv 0 (some 3) accTwo []).1 (updateFoldGo eEnv 0 (some 3) accTwo []).2 := by
  have hwf : wfChain 0 accTwo [] := ⟨by decide, by simp⟩
  have hconserv : conservA accTwo := by
    show accTwo._height = heightsSum accTwo.folds
    decide
  have hcontig : contigA accTwo := by
    simp [contigA, accTwo, openFold40]
  have hinv : invChain accTwo [] := ⟨⟨hconserv, hcontig⟩, by simp⟩
  have hnz : nzChain 3 accTwo [] := ⟨Or.inr (by decide), by simp⟩
  exact ⟨hwf, hinv, hnz,
    (invariants_hold_and_preserved eEnv accTwo [] 0 3).2.2 hwf hinv hnz⟩

/-! ### Comparing the two updateFold variants -/

theorem updateFoldLocal_ne_self (env : Env) (root : Bool) (j : Nat) (p : Accordion)
    (f : Fold) (hj : p.folds.get? j = some f) (v : Int) (hv : f.height = some v) :
    updateFoldLocal env root j (some 1) p ≠ p := by
  intro h
  have hsame : (updateFoldLocal env root j (some 1) p).folds.get? j = p.folds.get? j := by
    rw [h]
  rw [updateFoldLocal_folds, addHeightAt_get?_self,
    addYAfter_get?_le _ j j _ (le_refl j), hj] at hsame
  have h3 := congrArg (fun o => Option.map Fold.height o) hsame
  simp at h3
  rw [hv] at h3
  simp [jadd] at h3

theorem updateFoldGoOld_snd_cons (env : Env) (i : Nat) (off : JSNum) (a : Accordion)
    (j : Nat) (p : Accordion) (rest : List (Nat × Accordion)) :
    (updateFoldGoOld env i off a ((j, p) :: rest)).2
      = (j, (updateFoldGoOld env j off p rest).1) :: (updateFoldGoOld env j off p rest).2 := by
  simp [updateFoldGoOld]

theorem old_new_ne (env : Env) :
    ∀ (anc : List (Nat × Accordion)) (i : Nat) (a : Accordion),
      hostsInit anc → ¬ allOpen anc →
      updateFoldGoOld env i (some 1) a anc ≠ updateFoldGo env i (some 1) a anc := by
  intro anc
  induction anc with
  | nil =>
    intro i a _ hno
    exact absurd (fun e he => by simp at he) hno
  | cons e0 rest ih =>
    obtain ⟨j, p⟩ := e0
    intro i a hinit hno
    by_cases hpo : parentFoldOpen p j
    · have hpo2 : parentFoldOpen p j = true := by simpa using hpo
      have hno2 : ¬ allOpen rest := by
        intro hall
        apply hno
        intro e he
        rcases List.mem_cons.mp he with he | he
        · subst he
          exact hpo2
        · exact hall e he
      have hinit2 : hostsInit rest := fun e he => hinit e (List.mem_cons_of_mem _ he)
      have hne := ih j p hinit2 hno2
      intro heq
      apply hne
      have hsnd := congrArg Prod.snd heq
      rw [updateFoldGoOld_snd_cons, updateFoldGo_snd_cons_open env i (some 1) a j p rest hpo2]
        at hsnd
      injection hsnd with h1 h2
      injection h1 with h1a h1b
      exact Prod.ext h1b h2
    · have hpo2 : parentFoldOpen p j = false := by simpa using hpo
      intro heq
      have hsnd := congrArg Prod.snd heq
      rw [updateFoldGoOld_snd_cons, updateFoldGo_snd_cons_closed env i (some 1) a j p rest hpo2]
        at hsnd
      injection hsnd with h1 h2
      injection h1 with h1a h1b
      rw [updateFoldGoOld_fst] at h1b
      have hI := hinit (j, p) (by simp)
      cases hg : p.folds.get? j with
      | none =>
        rw [hg] at hI
        simp at hI
      | some f =>
        rw [hg] at hI
        simp at hI
        cases hh : f.height with
        | none => rw [hh] at hI; simp at hI
        | some v => exact updateFoldLocal_ne_self env rest.isEmpty j p f hg v hh h1b

theorem old_eq_new (env : Env) (off : JSNum) :
    ∀ (anc : List (Nat × Accordion)) (i : Nat) (a : Accordion),
      allOpen anc → updateFoldGoOld env i off a anc = updateFoldGo env i off a anc := by
  intro anc
  induction anc with
  | nil => intro i a _; rfl
  | cons e0 rest ih =>
    obtain ⟨j, p⟩ := e0
    intro i a hall
    have hpo : parentFoldOpen p j = true := hall (j, p) (by simp)
    have hnew : updateFoldGo env i off a ((j, p) :: rest)
        = (updateFoldLocal env false i off a,
           (j, (updateFoldGo env j off p rest).1) :: (updateFoldGo env j off p rest).2) := by
      simp [updateFoldGo, hpo]
    have hold : updateFoldGoOld env i off a ((j, p) :: rest)
        = (updateFoldLocal env false i off a,
           (j, (updateFoldGoOld env j off p rest).1) :: (updateFoldGoOld env j off p rest).2) := by
      simp [updateFoldGoOld]
    rw [hold, hnew, ih j p (fun e he => hall e (List.mem_cons_of_mem _ he))]

/-- C9 counterexample: the claim's "the two variants agree exactly on
accordions whose parentFold is open" fails on a depth-3 chain — here the
immediate `parentFold` (fold 0 of `accOpen`) is open, yet the variants
still disagree because the grandparent's hosting fold (fold 0 of
`accClosed`) is closed and only the older variant keeps propagating
through it. -/
theorem updateFold_variants_claim_counterexample :
    parentFoldOpen accOpen 0 = true ∧
    parentFoldOpen accClosed 0 = false ∧
    updateFoldGoOld eEnv 0 (some 1) accTwo [(0, accOpen), (0, accClosed)]
      ≠ updateFoldGo eEnv 0 (some 1) accTwo [(0, accOpen), (0, accClosed)] := by
  refine ⟨by decide, by decide, by decide⟩

/-- C9 (amended): the two `updateFold` variants are not equivalent — the
older delegates whenever a `parentFold` exists, the newer only when it is
open; on any chain whose hosting folds exist with initialized heights, the
variants agree for every offset exactly when ALL hosting folds up the chain
are open (or there are no ancestors) — not merely when the immediate
`parentFold` is open. -/
theorem updateFold_variants_agreement (env : Env) (i : Nat) (a : Accordion)
    (anc : List (Nat × Accordion)) (hinit : hostsInit anc) :
    ((∀ off, updateFoldGoOld env i off a anc = updateFoldGo env i off a anc) ↔ allOpen anc) ∧
    (∀ off, updateFoldGoOld env i off a [] = updateFoldGo env i off a []) := by
  constructor
  · constructor
    · intro hall
      by_contra hno
      exact old_new_ne env anc i a hinit hno (hall (some 1))
    · intro hopen off
      exact old_eq_new env off anc i a hopen
  · intro off
    rfl

/-- C9 witness: over the single closed ancestor `accClosed` the agreement
criterion evaluates to `allOpen`, which fails there. -/
theorem updateFold_variants_agreement_witness :
    hostsInit [((0 : Nat), accClosed)] ∧
    (((∀ off, updateFoldGoOld eEnv 0 off accTwo [(0, accClosed)]
        = updateFoldGo eEnv 0 off accTwo [(0, accClosed)]) ↔ allOpen [((0 : Nat), accClosed)]) ∧
      (∀ off, updateFoldGoOld eEnv 0 off accTwo [] = updateFoldGo eEnv 0 off accTwo [])) := by
  have hI : hostsInit [((0 : Nat), accClosed)] := by
    intro e he
    simp at he
    subst he
    decide
  exact ⟨hI, updateFold_variants_agreement eEnv 0 accTwo [(0, accClosed)] hI⟩

/-! ### Resize coordinator lemmas -/

theorem resize_ls_nil (s : ResizeState) (h : atMostOne s) :
    (match s.onResize with
      | none => s.listeners
      | some h0 => s.listeners.erase h0) = [] := by
  rcases h with h | ⟨h0, honr, hl⟩
  · rw [h]
    cases s.onResize <;> simp
  · rw [honr, hl]
    simp

theorem debounceFires_one (d : Int) :
    ∀ ts : List Int, ts ≠ [] → ts.Chain' (fun t1 t2 => t2 - t1 < d) → debounceFires d ts = 1 := by
  intro ts
  induction ts with
  | nil => intro h _; exact absurd rfl h
  | cons t1 rest ih =>
    intro _ hchain
    cases rest with
    | nil => rfl
    | cons t2 ts2 =>
      have hc := List.chain'_cons.mp hchain
      have hlt : ¬ d ≤ t2 - t1 := by omega
      show (if d ≤ t2 - t1 then 1 else 0) + debounceFires d (t2 :: ts2) = 1
      rw [if_neg hlt, ih (by simp) hc.2]

/-- C8: `setResizeRate` keeps at most one resize listener installed; a
falsy delay other than the literal `false` installs the immediate
per-event handler; a positive numeric delay installs a debounced handler
(modelled from the spec: a burst of events with every gap below the quiet
period fires exactly once); the literal `false` or a negative delay removes
the listener without reinstalling; and the installed handler's body invokes
`refresh(true)` exactly on the registered accordions that have no parent. -/
theorem setResizeRate_spec (s : ResizeState) (delay : JSDelay) (d : Int) (regs : List Bool)
    (ts : List Int) (k : Nat) :
    (atMostOne s → atMostOne (setResizeRate delay s) ∧
      (setResizeRate delay s).listeners.length ≤ 1) ∧
    (atMostOne s → delay.isFalsy = true → delay ≠ JSDelay.bool false →
      setResizeRate delay s
        = { onResize := some Handler.immediate, listeners := [Handler.immediate] }) ∧
    (atMostOne s → 0 < d →
      setResizeRate (JSDelay.num d) s
        = { onResize := some (Handler.debounced d), listeners := [Handler.debounced d] }) ∧
    (atMostOne s → (delay = JSDelay.bool false ∨ ∃ n, delay = JSDelay.num n ∧ n < 0) →
      setResizeRate delay s = { s with listeners := [] }) ∧
    ((handlerRefreshes regs).get? k = some true ↔ regs.get? k = some false) ∧
    (ts ≠ [] → ts.Chain' (fun t1 t2 => t2 - t1 < d) → debounceFires d ts = 1) := by
  refine ⟨?_, ?_, ?_, ?_, ?_, debounceFires_one d ts⟩
  · intro h
    have hls := resize_ls_nil s h
    by_cases hdf : delay = JSDelay.bool false
    · have : setResizeRate delay s = { s with listeners := [] } := by
        simp [setResizeRate, hls, hdf]
      rw [this]
      exact ⟨Or.inl rfl, by simp⟩
    · by_cases hd0 : 0 ≤ delay.toNumOr0
      · by_cases hdz : delay.toNumOr0 = 0
        · have : setResizeRate delay s
              = { onResize := some Handler.immediate, listeners := [Handler.immediate] } := by
            simp [setResizeRate, hls, hdf, hd0, hdz]
          rw [this]
          exact ⟨Or.inr ⟨Handler.immediate, rfl, rfl⟩, by simp⟩
        · have : setResizeRate delay s
              = { onResize := some (Handler.debounced delay.toNumOr0),
                  listeners := [Handler.debounced delay.toNumOr0] } := by
            simp [setResizeRate, hls, hdf, hd0, hdz]
          rw [this]
          exact ⟨Or.inr ⟨Handler.debounced delay.toNumOr0, rfl, rfl⟩, by simp⟩
      · have : setResizeRate delay s = { s with listeners := [] } := by
          simp [setResizeRate, hls, hdf, hd0]
        rw [this]
        exact ⟨Or.inl rfl, by simp⟩
  · intro h hfal hne
    have hls := resize_ls_nil s h
    have hz : delay.toNumOr0 = 0 := by
      cases delay with
      | num n =>
        have : n = 0 := by simpa [JSDelay.isFalsy] using hfal
        simp [JSDelay.toNumOr0, this]
      | bool b =>
        cases b with
        | false => exact absurd rfl hne
        | true => simp [JSDelay.isFalsy] at hfal
      | nullv => rfl
      | undef => rfl
      | nan => rfl
    simp [setResizeRate, hls, hne, hz]
  · intro h hd
    have hls := resize_ls_nil s h
    have hne : JSDelay.num d ≠ JSDelay.bool false := by simp
    have hz : (JSDelay.num d).toNumOr0 = d := rfl
    have hdz : d ≠ 0 := by omega
    simp [setResizeRate, hls, hne, hz, le_of_lt hd, hdz]
  · intro h hcase
    have hls := resize_ls_nil s h
    rcases hcase with hdf | ⟨n, hdn, hn⟩
    · simp [setResizeRate, hls, hdf]
    · subst hdn
      have hne : JSDelay.num n ≠ JSDelay.bool false := by simp
      have : ¬ (0 ≤ (JSDelay.num n).toNumOr0) := by
        simp [JSDelay.toNumOr0]
        omega
      simp [setResizeRate, hls, hne, this]
  · rw [handlerRefreshes, List.get?_map]
    cases hr : regs.get? k with
    | none => simp
    | some b => cases b <;> simp

/-- C8 witness: from the empty listener state, `setResizeRate(100)`
installs exactly one debounced handler, and three resize events inside the
100ms quiet period fire the modelled debounced handler once. -/
theorem setResizeRate_spec_witness :
    atMostOne { onResize := none, listeners := ([] : List Handler) } ∧
    (0 : Int) < 100 ∧
    setResizeRate (JSDelay.num 100) { onResize := none, listeners := [] }
      = { onResize := some (Handler.debounced 100), listeners := [Handler.debounced 100] } ∧
    ([0, 50, 90] : List Int) ≠ [] ∧
    debounceFires 100 [0, 50, 90] = 1 := by
  have hs : atMostOne { onResize := none, listeners := ([] : List Handler) } := Or.inl rfl
  refine ⟨hs, by norm_num, ?_, by simp, ?_⟩
  · exact (setResizeRate_spec { onResize := none, listeners := [] }
      (JSDelay.num 100) 100 [] [] 0).2.2.1 hs (by norm_num)
  · exact (setResizeRate_spec { onResize := none, listeners := [] }
      (JSDelay.num 100) 100 [] [0, 50, 90] 0).2.2.2.2.2 (by simp)
      (by norm_num [List.chain'_cons])
